import Mathlib

/-!
Verification development for the natural-language mixing interpreter and its
versioned session pipeline (source: `mix_engineer.py`).

Text is modelled as a list of Unicode code points (`List Nat`), matching
Python's view of a `str` as a sequence of code points.  `str.lower` is
modelled on the ASCII range (all keywords in the source are ASCII), and the
`\d` / `\s` character classes of the one regular expression in the source are
modelled on their ASCII members, which covers every input the program's
vocabulary can match.
-/

abbrev Text := List Nat

/-- Python `str.lower` on one code point (ASCII range, as used by the source's
keyword vocabulary). -/
def lowerChar (n : Nat) : Nat := if 65 ≤ n ∧ n ≤ 90 then n + 32 else n

/-- Python `prompt.lower()`. -/
def pyLower (t : Text) : Text := t.map lowerChar

/-- Convert a Lean string literal to the code-point model. -/
def s2t (s : String) : Text := s.toList.map Char.toNat

/-- Does `hay` start with `needle`? -/
def startsWithB : Text → Text → Bool
  | [], _ => true
  | _ :: _, [] => false
  | a :: as, b :: bs => a == b && startsWithB as bs

/-- Python's substring test `needle in hay`. -/
def occursIn (needle : Text) : Text → Bool
  | [] => needle.isEmpty
  | h :: t => startsWithB needle (h :: t) || occursIn needle t

/-- Does `hay` end with `needle`? -/
def endsWithB (needle hay : Text) : Bool :=
  startsWithB needle.reverse hay.reverse

/-- Python generator test `any(kw in prompt for kw in kws)`. -/
def anyKw (kws : List Text) (prompt : Text) : Bool :=
  kws.any (fun k => occursIn k prompt)

/-! Keyword tables of `PromptParser` (module-level class constants). -/

def PromptParser.EQ_KEYWORDS : List Text :=
  ["eq", "equalizer", "bass", "treble", "mid", "mids", "highs", "lows",
   "frequency", "frequencies", "bright", "dark", "warm", "muddy", "crisp"].map s2t

def PromptParser.COMPRESSION_KEYWORDS : List Text :=
  ["compress", "compression", "compressor", "dynamics",
   "punch", "punchy", "squash", "glue", "thick"].map s2t

def PromptParser.REVERB_KEYWORDS : List Text :=
  ["reverb", "room", "hall", "space", "ambient", "wet", "dry",
   "atmosphere", "depth"].map s2t

def PromptParser.VOLUME_KEYWORDS : List Text :=
  ["volume", "level", "loud", "quiet", "gain", "boost", "cut",
   "turn up", "turn down", "louder", "softer"].map s2t

def PromptParser.MASTER_KEYWORDS : List Text :=
  ["master", "mastering", "finalize", "polish", "streaming",
   "spotify", "release", "final"].map s2t

def PromptParser.STYLE_KEYWORDS : List Text :=
  ["style", "genre", "vibe", "feel", "mood", "sound like",
   "similar to", "remake", "reimagine", "version"].map s2t

def PromptParser.WIDTH_KEYWORDS : List Text :=
  ["stereo", "width", "wide", "narrow", "mono", "spread"].map s2t

/-! Parameter records of the operation kinds. -/

structure EqP where
  bass : Int
  mid : Int
  treble : Int
deriving DecidableEq, Repr

structure CompP where
  threshold : Int
  ratio : Int
  attack : Int
  release : Int
deriving DecidableEq, Repr

structure RevP where
  room_size : ℚ
  damping : ℚ
  wet : ℚ
deriving DecidableEq, Repr

/-- Model of `PromptParser._parse_eq`: the params dict starts at all zeros and the three
if/elif groups update it in sequence. -/
def PromptParser.parse_eq (p : Text) : EqP :=
  let p1 : EqP :=
    if occursIn (s2t "more bass") p || occursIn (s2t "boost bass") p ||
        occursIn (s2t "add bass") p then
      { bass := 4, mid := 0, treble := 0 }
    else if occursIn (s2t "less bass") p || occursIn (s2t "cut bass") p ||
        occursIn (s2t "reduce bass") p then
      { bass := -4, mid := 0, treble := 0 }
    else if occursIn (s2t "warm") p then
      { bass := 2, mid := 0, treble := -1 }
    else
      { bass := 0, mid := 0, treble := 0 }
  let p2 : EqP :=
    if occursIn (s2t "more treble") p || occursIn (s2t "brighter") p ||
        occursIn (s2t "crisp") p || occursIn (s2t "bright") p then
      { p1 with treble := 3 }
    else if occursIn (s2t "less treble") p || occursIn (s2t "dark") p ||
        occursIn (s2t "darker") p then
      { p1 with treble := -3 }
    else p1
  if occursIn (s2t "more mids") p || occursIn (s2t "boost mids") p then
    { p2 with mid := 3 }
  else if occursIn (s2t "less mids") p || occursIn (s2t "scoop") p ||
      occursIn (s2t "scooped") p then
    { p2 with mid := -4 }
  else if occursIn (s2t "muddy") p || occursIn (s2t "clear") p then
    { p2 with mid := -2, treble := 2 }
  else p2

/-- Model of `PromptParser._parse_compression`: defaults threshold -20, ratio 4,
attack 5, release 50, refined by one if/elif chain. -/
def PromptParser.parse_compression (p : Text) : CompP :=
  if occursIn (s2t "heavy") p || occursIn (s2t "squash") p then
    { threshold := -25, ratio := 8, attack := 5, release := 50 }
  else if occursIn (s2t "light") p || occursIn (s2t "gentle") p then
    { threshold := -15, ratio := 2, attack := 5, release := 50 }
  else if occursIn (s2t "punch") p || occursIn (s2t "punchy") p then
    { threshold := -20, ratio := 4, attack := 20, release := 50 }
  else if occursIn (s2t "glue") p then
    { threshold := -10, ratio := 2, attack := 5, release := 50 }
  else
    { threshold := -20, ratio := 4, attack := 5, release := 50 }

/-- Model of `PromptParser._parse_reverb`: defaults room 0.5, damping 0.5, wet 0.3 (decimal literals written as exact fractions via mkRat),
refined by two sequential if/elif groups. -/
def PromptParser.parse_reverb (p : Text) : RevP :=
  let p1 : RevP :=
    if occursIn (s2t "hall") p || occursIn (s2t "large") p ||
        occursIn (s2t "big") p then
      { room_size := mkRat 9 10, damping := mkRat 5 10, wet := mkRat 4 10 }
    else if occursIn (s2t "room") p || occursIn (s2t "small") p then
      { room_size := mkRat 3 10, damping := mkRat 5 10, wet := mkRat 2 10 }
    else if occursIn (s2t "plate") p then
      { room_size := mkRat 6 10, damping := mkRat 3 10, wet := mkRat 3 10 }
    else
      { room_size := mkRat 5 10, damping := mkRat 5 10, wet := mkRat 3 10 }
  if occursIn (s2t "wet") p || occursIn (s2t "lots of") p ||
      occursIn (s2t "more reverb") p then
    { p1 with wet := mkRat 5 10 }
  else if occursIn (s2t "dry") p || occursIn (s2t "subtle") p ||
      occursIn (s2t "less reverb") p then
    { p1 with wet := mkRat 15 100 }
  else p1

/-! The regular expression `([+-]?\d+)\s*db` used by `_parse_volume`.
Because a digit is neither a space nor `d`, the greedy `\d+` and `\s*` never
need to backtrack, so leftmost maximal-munch matching is exact. -/

def isDigC (n : Nat) : Bool := decide (48 ≤ n ∧ n ≤ 57)

def isSpaceC (n : Nat) : Bool :=
  n == 32 || n == 9 || n == 10 || n == 13 || n == 11 || n == 12

/-- Decimal value of a big-endian list of digit code points. -/
def digitsVal (ds : List Nat) : Int :=
  ds.foldl (fun a d => a * 10 + (Int.ofNat d - 48)) 0

/-- Try to match `([+-]?\d+)\s*db` at the start of `t`; return the signed
integer value of group 1 on a match. -/
def matchDbAt (t : Text) : Option Int :=
  let (sign, rest) : Int × Text :=
    match t with
    | 43 :: r => (1, r)
    | 45 :: r => (-1, r)
    | _ => (1, t)
  let digits := rest.takeWhile isDigC
  if digits.isEmpty then none
  else
    let rest2 := (rest.drop digits.length).dropWhile isSpaceC
    match rest2 with
    | 100 :: 98 :: _ => some (sign * digitsVal digits)
    | _ => none

/-- Leftmost occurrence of the pattern, as `re.search` finds it. -/
def searchDb : Text → Option Int
  | [] => none
  | h :: t =>
    match matchDbAt (h :: t) with
    | some v => some v
    | none => searchDb t

/-- Model of `PromptParser._parse_volume`: qualitative if/elif chain, then the explicit
`([+-]?\d+)\s*db` match overrides the dB value when present. -/
def PromptParser.parse_volume (p : Text) : Int :=
  let db1 : Int :=
    if occursIn (s2t "louder") p || occursIn (s2t "turn up") p ||
        occursIn (s2t "boost") p then 3
    else if occursIn (s2t "quieter") p || occursIn (s2t "turn down") p ||
        occursIn (s2t "reduce") p then -3
    else if occursIn (s2t "much louder") p then 6
    else if occursIn (s2t "much quieter") p then -6
    else 0
  match searchDb p with
  | some v => v
  | none => db1

/-- Model of `PromptParser._parse_width`. -/
def PromptParser.parse_width (p : Text) : ℚ :=
  if occursIn (s2t "wider") p || occursIn (s2t "spread") p ||
      occursIn (s2t "wide") p then mkRat 15 10
  else if occursIn (s2t "narrow") p || occursIn (s2t "mono") p ||
      occursIn (s2t "centered") p then mkRat 5 10
  else if occursIn (s2t "very wide") p then mkRat 2 1
  else mkRat 1 1

/-- The typed operations emitted by the parser (`{'type': ..., 'params': ...}`
entries of the result's `operations` list). -/
inductive Op where
  | eq (params : EqP)
  | compression (params : CompP)
  | reverb (params : RevP)
  | volume (db : Int)
  | stereo_width (width : ℚ)
  | master
deriving DecidableEq, Repr

/-- The dict returned by `PromptParser.parse`; `style_prompt` is present
(`some`) exactly when a style keyword matched. -/
structure ParseResult where
  original : Text
  operations : List Op
  requires_suno : Bool
  requires_audio_processing : Bool
  style_prompt : Option Text
deriving DecidableEq, Repr

/-- Model of `PromptParser.parse`.  The six family checks run in a fixed order and each
appends at most one operation.  Note `_parse_eq` always returns a non-empty
(three-key) dict, so the source's `if eq_params:` truthiness test always
passes and is dropped here. -/
def PromptParser.parse (prompt : Text) : ParseResult :=
  let pl := pyLower prompt
  let eqM := anyKw PromptParser.EQ_KEYWORDS pl
  let compM := anyKw PromptParser.COMPRESSION_KEYWORDS pl
  let revM := anyKw PromptParser.REVERB_KEYWORDS pl
  let volM := anyKw PromptParser.VOLUME_KEYWORDS pl
  let widM := anyKw PromptParser.WIDTH_KEYWORDS pl
  let masM := anyKw PromptParser.MASTER_KEYWORDS pl
  let styM := anyKw PromptParser.STYLE_KEYWORDS pl
  { original := prompt
    operations :=
      (if eqM then [Op.eq (PromptParser.parse_eq pl)] else []) ++
      (if compM then [Op.compression (PromptParser.parse_compression pl)] else []) ++
      (if revM then [Op.reverb (PromptParser.parse_reverb pl)] else []) ++
      (if volM then [Op.volume (PromptParser.parse_volume pl)] else []) ++
      (if widM then [Op.stereo_width (PromptParser.parse_width pl)] else []) ++
      (if masM then [Op.master] else [])
    requires_suno := styM
    requires_audio_processing := eqM || compM || revM || volM || widM || masM
    style_prompt := if styM then some prompt else none }

/-! ## External audio engine interface

Every audio operation in the source is one `ffmpeg -y -i input -af FILTER out`
invocation.  The engine is modelled as an oracle deciding success of such a
call.  Filter strings whose numeric parameters the source formats with
f-strings are abstracted to constructors carrying the exact parameters; the
hard-coded filter strings of the mastering chain are kept verbatim. -/

/-- The `-af` filter argument of one engine invocation. -/
inductive AfArg where
  | filters (fs : List String)
  | comp (threshold ratio attack release : Int)
  | reverbEcho (room_size damping wet : ℚ)
  | vol (db : Int)
  | widthTool (width : ℚ)
deriving DecidableEq, Repr

/-- One invocation of the external engine. -/
structure EngineCall where
  input : Text
  output : Text
  af : AfArg
deriving DecidableEq, Repr

/-- Filter list `AudioProcessor.apply_eq` builds: up to three `equalizer`
filters, skipping bands whose gain is 0. -/
def eqFilterList (bass mid treble : Int) : List String :=
  (if bass ≠ 0 then ["equalizer=f=100:t=q:w=1:g=" ++ toString bass] else []) ++
  (if mid ≠ 0 then ["equalizer=f=1000:t=q:w=1:g=" ++ toString mid] else []) ++
  (if treble ≠ 0 then ["equalizer=f=10000:t=q:w=1:g=" ++ toString treble] else [])

/-- Model of `AudioProcessor.apply_eq`: returns `False` without invoking ffmpeg when all
three gains are zero (empty filter list); otherwise the engine call decides. -/
def AudioProcessor.apply_eq (run : EngineCall → Bool) (input output : Text)
    (bass mid treble : Int) : Bool :=
  let filters := eqFilterList bass mid treble
  if filters.isEmpty then false
  else run ⟨input, output, AfArg.filters filters⟩

/-- Model of `AudioProcessor.chain_effects`: `False` on an empty chain, else
one engine call with the joined chain. -/
def AudioProcessor.chain_effects (run : EngineCall → Bool) (input output : Text)
    (filters : List String) : Bool :=
  if filters.isEmpty then false
  else run ⟨input, output, AfArg.filters filters⟩

/-- The hard-coded mastering chain of `process_prompt`
(High-pass, Compression, two-band EQ, Limiter, Loudness normalize). -/
def masterFilters : List String :=
  ["highpass=f=30",
   "acompressor=threshold=-18dB:ratio=3:attack=10:release=100",
   "equalizer=f=100:t=q:w=1:g=1,equalizer=f=10000:t=q:w=1:g=1.5",
   "alimiter=limit=-1dB:level=false",
   "loudnorm=I=-14:TP=-1.5:LRA=11"]

/-- The `success = ...` dispatch of `process_prompt` for one operation. -/
def engineSuccess (run : EngineCall → Bool) (input output : Text) : Op → Bool
  | Op.eq pr => AudioProcessor.apply_eq run input output pr.bass pr.mid pr.treble
  | Op.compression ⟨th, ra, ak, rl⟩ =>
      run ⟨input, output, AfArg.comp th ra ak rl⟩
  | Op.reverb pr => run ⟨input, output, AfArg.reverbEcho pr.room_size pr.damping pr.wet⟩
  | Op.volume db => run ⟨input, output, AfArg.vol db⟩
  | Op.stereo_width w => run ⟨input, output, AfArg.widthTool w⟩
  | Op.master => AudioProcessor.chain_effects run input output masterFilters

/-- The engine call issued for one operation, `none` when the code fails
before reaching the engine (an all-zero EQ). -/
def engineCallOf (input output : Text) : Op → Option EngineCall
  | Op.eq pr =>
      let filters := eqFilterList pr.bass pr.mid pr.treble
      if filters.isEmpty then none
      else some ⟨input, output, AfArg.filters filters⟩
  | Op.compression ⟨th, ra, ak, rl⟩ =>
      some ⟨input, output, AfArg.comp th ra ak rl⟩
  | Op.reverb pr => some ⟨input, output, AfArg.reverbEcho pr.room_size pr.damping pr.wet⟩
  | Op.volume db => some ⟨input, output, AfArg.vol db⟩
  | Op.stereo_width w => some ⟨input, output, AfArg.widthTool w⟩
  | Op.master =>
      if masterFilters.isEmpty then none
      else some ⟨input, output, AfArg.filters masterFilters⟩

/-! ## Versioned artifact names

`MixSession.get_versioned_path` formats `f"v{version:03d}{suffix}.wav"`.
Decimal rendering is modelled with an explicit fuel-based digit expansion so
that every definition evaluates by kernel reduction. -/

/-- Big-endian decimal digits of `n` (empty for 0), computed with fuel. -/
def toDigsF : Nat → Nat → List Nat
  | 0, _ => []
  | _ + 1, 0 => []
  | f + 1, n + 1 => toDigsF f ((n + 1) / 10) ++ [(n + 1) % 10]

def toDigs (n : Nat) : List Nat := toDigsF n n

/-- Zero-pad the digit list to width at least 3 (Python `{:03d}`). -/
def pad3 (n : Nat) : List Nat :=
  List.replicate (3 - (toDigs n).length) 0 ++ toDigs n

/-- The digit characters of `f"{n:03d}"`. -/
def padDigits (n : Nat) : Text := (pad3 n).map (fun d => d + 48)

/-- The file name built by `get_versioned_path`: letter v, the zero-padded
version, the suffix, extension .wav (the session directory is a per-session
constant and is dropped from the model). -/
def nameFor (version : Nat) (suffix : Text) : Text :=
  118 :: padDigits version ++ suffix ++ s2t ".wav"

/-! ## Session ledger and orchestrator -/

/-- One record appended by `MixSession.add_action` (the wall-clock timestamp
is not modelled). -/
structure HRec where
  action : String
  params : Op
  result : String
  version : Nat
deriving DecidableEq, Repr

/-- State of `MixSession`: current artifact (None before `set_source`), version
counter, append-only history. -/
structure MixSession where
  current_file : Option Text
  version : Nat
  history : List HRec
deriving DecidableEq, Repr

/-- Model of `MixSession.set_source`. -/
def MixSession.set_source (sess : MixSession) (file_path : Text) : MixSession :=
  { sess with current_file := some file_path, version := 0 }

/-- The `op_type` string of an operation. -/
def opTypeName : Op → String
  | Op.eq _ => "eq"
  | Op.compression _ => "compression"
  | Op.reverb _ => "reverb"
  | Op.volume _ => "volume"
  | Op.stereo_width _ => "stereo_width"
  | Op.master => "master"

/-- The suffix (underscore then the op-type tag) passed to `get_versioned_path`. -/
def opSuffix (op : Op) : Text := s2t ("_" ++ opTypeName op)

/-- How many times one loop iteration calls `get_versioned_path`: the master
branch additionally reserves a `_master_temp` slot it never uses. -/
def slotCount : Op → Nat
  | Op.master => 2
  | _ => 1

/-- The versioned paths returned by `get_versioned_path` while processing one
operation, starting from version counter `v`. -/
def stepSlots (v : Nat) : Op → List Text
  | Op.master => [nameFor (v + 1) (s2t "_master"), nameFor (v + 2) (s2t "_master_temp")]
  | op => [nameFor (v + 1) (opSuffix op)]

/-- Trace entry for one processed operation (ghost instrumentation: the
operation, the slots reserved for it, the engine call made, its success). -/
structure LogEntry where
  op : Op
  slots : List Text
  call : Option EngineCall
  success : Bool
deriving DecidableEq, Repr

/-- One iteration of the operations loop of
`process_prompt`.  `current` is the loop-local `current_file` variable; on
success both it and the session's `current_file` advance to the new artifact
and a "success" record is appended; on failure only the version counter has
moved (it was bumped by `get_versioned_path` before the engine ran). -/
def stepOp (run : EngineCall → Bool) (sess : MixSession) (current : Text)
    (op : Op) : MixSession × Text × LogEntry :=
  let out := nameFor (sess.version + 1) (opSuffix op)
  let v2 := sess.version + slotCount op
  let entrySlots := stepSlots sess.version op
  let call? := engineCallOf current out op
  if engineSuccess run current out op then
    ({ current_file := some out, version := v2,
       history := sess.history ++ [⟨opTypeName op, op, "success", v2⟩] },
     out, ⟨op, entrySlots, call?, true⟩)
  else
    ({ sess with version := v2 }, current, ⟨op, entrySlots, call?, false⟩)

/-- The whole operation loop of `process_prompt`. -/
def processOps (run : EngineCall → Bool) :
    MixSession → Text → List Op → MixSession × Text × List LogEntry
  | sess, current, [] => (sess, current, [])
  | sess, current, op :: rest =>
    let r1 := stepOp run sess current op
    let r2 := processOps run r1.1 r1.2.1 rest
    (r2.1, r2.2.1, r1.2.2 :: r2.2.2)

/-- The outcome of `MixEngineer.process_prompt`, by kind of returned text. -/
inductive Reply where
  | noSession
  | noSource
  | guidance
  | report (opCount : Nat) (version : Nat) (output : Option Text)
deriving DecidableEq, Repr

/-- Model of `MixEngineer.process_prompt`. -/
def MixEngineer.process_prompt (run : EngineCall → Bool)
    (sess? : Option MixSession) (prompt : Text) : Reply × Option MixSession :=
  match sess? with
  | none => (Reply.noSession, none)
  | some sess =>
    match sess.current_file with
    | none => (Reply.noSource, some sess)
    | some cf =>
      let parsed := PromptParser.parse prompt
      if parsed.operations.isEmpty && !parsed.requires_suno then
        (Reply.guidance, some sess)
      else
        let r := processOps run sess cf parsed.operations
        (Reply.report parsed.operations.length r.1.version r.1.current_file,
         some r.1)

/-- The outcome of `MixEngineer.undo`, by kind of returned text. -/
inductive UndoReply where
  | nothingToUndo
  | reverted (version : Nat)
  | missing
deriving DecidableEq, Repr

/-- The glob pattern used by `undo`: letter v, the zero-padded target
version, anything, extension .wav. -/
def globMatch (prev : Nat) (f : Text) : Bool :=
  startsWithB (118 :: padDigits prev) f && endsWithB (s2t ".wav") f

/-- Model of `MixEngineer.undo`.  Here `files` models the session directory's contents (the
files glob iterates over, all of which exist); the source takes the first
glob hit, modelled as the first list element matching the pattern. -/
def MixEngineer.undo (files : List Text) (sess : MixSession) :
    UndoReply × MixSession :=
  if sess.version < 2 then (UndoReply.nothingToUndo, sess)
  else
    let prev := sess.version - 1
    match files.find? (globMatch prev) with
    | some f =>
        (UndoReply.reverted prev,
         { sess with current_file := some f, version := prev })
    | none => (UndoReply.missing, sess)

/-! Slot bookkeeping used to state the collision claims. -/

/-- All versioned paths handed out during a batch, in order. -/
def logSlots : List LogEntry → List Text
  | [] => []
  | e :: rest => e.slots ++ logSlots rest

/-- Total number of `get_versioned_path` calls a batch performs. -/
def slotTotal (ops : List Op) : Nat := (ops.map slotCount).sum

/-- All versioned paths handed out over a sequence of batches (each batch:
the loop-local input file and the parsed operations), with the session state
flowing from one batch to the next and no undo in between. -/
def multiSlots (run : EngineCall → Bool) :
    MixSession → List (Text × List Op) → List Text
  | _, [] => []
  | sess, (c, ops) :: more =>
    let r := processOps run sess c ops
    logSlots r.2.2 ++ multiSlots run r.1 more

/-! Remaining definitions used to state the claims. -/

/-- Disjunction of all six family keyword checks and the style keyword check,
exactly as `parse` performs them on the lowered prompt. -/
def anyFamilyOrStyle (t : Text) : Bool :=
  anyKw PromptParser.EQ_KEYWORDS (pyLower t) ||
  anyKw PromptParser.COMPRESSION_KEYWORDS (pyLower t) ||
  anyKw PromptParser.REVERB_KEYWORDS (pyLower t) ||
  anyKw PromptParser.VOLUME_KEYWORDS (pyLower t) ||
  anyKw PromptParser.WIDTH_KEYWORDS (pyLower t) ||
  anyKw PromptParser.MASTER_KEYWORDS (pyLower t) ||
  anyKw PromptParser.STYLE_KEYWORDS (pyLower t)

/-- Disjunction of every cue phrase `_parse_eq` tests for. -/
def eqCue (p : Text) : Bool :=
  occursIn (s2t "more bass") p || occursIn (s2t "boost bass") p ||
  occursIn (s2t "add bass") p || occursIn (s2t "less bass") p ||
  occursIn (s2t "cut bass") p || occursIn (s2t "reduce bass") p ||
  occursIn (s2t "warm") p || occursIn (s2t "more treble") p ||
  occursIn (s2t "brighter") p || occursIn (s2t "crisp") p ||
  occursIn (s2t "bright") p || occursIn (s2t "less treble") p ||
  occursIn (s2t "dark") p || occursIn (s2t "darker") p ||
  occursIn (s2t "more mids") p || occursIn (s2t "boost mids") p ||
  occursIn (s2t "less mids") p || occursIn (s2t "scoop") p ||
  occursIn (s2t "scooped") p || occursIn (s2t "muddy") p ||
  occursIn (s2t "clear") p

/-- Decimal big-endian value of a digit list (used to invert zero-padding). -/
def bigVal (l : List Nat) : Nat := l.foldl (fun a d => 10 * a + d) 0

/-- An engine oracle that accepts every call. -/
def runTrue : EngineCall → Bool := fun _ => true

/-- A session with a source set and no operations applied yet. -/
def sess0 : MixSession := ⟨some (s2t "song.wav"), 0, []⟩

/-- Session after one successful volume operation (version 1). -/
def oneOpSess : MixSession :=
  (processOps runTrue sess0 (s2t "song.wav") [Op.volume 3]).1

/-- Two successful volume operations from a fresh source: slots
`v001_volume.wav` and `v002_volume.wav`, version 2. -/
def collisionBatch1 : MixSession × Text × List LogEntry :=
  processOps runTrue sess0 (s2t "song.wav") [Op.volume 3, Op.volume 3]

/-- The artifacts those two operations produced (session directory listing). -/
def undoFiles : List Text := [nameFor 1 (s2t "_volume"), nameFor 2 (s2t "_volume")]

/-- Undo after the two operations: version drops back to 1. -/
def collisionUndo : UndoReply × MixSession :=
  MixEngineer.undo undoFiles collisionBatch1.1

/-- A further volume operation after the undo. -/
def collisionBatch2 : MixSession × Text × List LogEntry :=
  processOps runTrue collisionUndo.2 (nameFor 1 (s2t "_volume")) [Op.volume 3]

/-- The log entry produced by processing a single Master operation on a fresh
session. -/
def masterEntry : LogEntry :=
  ⟨Op.master, stepSlots 0 Op.master,
   some ⟨s2t "song.wav", nameFor 1 (s2t "_master"), AfArg.filters masterFilters⟩,
   true⟩

/-! # Theorems -/

theorem lowerChar_idem (n : Nat) : lowerChar (lowerChar n) = lowerChar n := by
  unfold lowerChar
  split_ifs <;> omega

theorem pyLower_idem (t : Text) : pyLower (pyLower t) = pyLower t := by
  have h : lowerChar ∘ lowerChar = lowerChar := funext lowerChar_idem
  simp [pyLower, List.map_map, h]

/-- Claim C9: parse is case-insensitive in its classification — for every
input text, parsing the lower-cased text yields the same operation list and
the same two flags as parsing the original text; only the stored original
text (and style prompt) carries the given text verbatim. -/
theorem parse_case_insensitive (t : Text) :
    (PromptParser.parse (pyLower t)).operations = (PromptParser.parse t).operations ∧
    (PromptParser.parse (pyLower t)).requires_audio_processing =
      (PromptParser.parse t).requires_audio_processing ∧
    (PromptParser.parse (pyLower t)).requires_suno =
      (PromptParser.parse t).requires_suno ∧
    (PromptParser.parse t).original = t := by
  simp [PromptParser.parse, pyLower_idem]

/-- Claim C8: for every input in which no keyword of any of the six operation
families and no style keyword occurs as a substring, parse returns an empty
operation list with both flags false, and process_prompt returns the guidance
summary (not an error), leaving the session unchanged. -/
theorem unmatched_text_guidance (t : Text) (h : anyFamilyOrStyle t = false) :
    (PromptParser.parse t).operations = [] ∧
    (PromptParser.parse t).requires_audio_processing = false ∧
    (PromptParser.parse t).requires_suno = false ∧
    ∀ (run : EngineCall → Bool) (sess : MixSession) (cf : Text),
      sess.current_file = some cf →
      MixEngineer.process_prompt run (some sess) t = (Reply.guidance, some sess) := by
  simp only [anyFamilyOrStyle, Bool.or_eq_false_iff] at h
  obtain ⟨⟨⟨⟨⟨⟨h1, h2⟩, h3⟩, h4⟩, h5⟩, h6⟩, h7⟩ := h
  refine ⟨?_, ?_, ?_, ?_⟩
  · simp [PromptParser.parse, h1, h2, h3, h4, h5, h6, h7]
  · simp [PromptParser.parse, h1, h2, h3, h4, h5, h6, h7]
  · simp [PromptParser.parse, h1, h2, h3, h4, h5, h6, h7]
  · intro run sess cf hcf
    simp [MixEngineer.process_prompt, hcf, PromptParser.parse,
      h1, h2, h3, h4, h5, h6, h7]

theorem parse_eq_zero_of_no_cue (p : Text) (h : eqCue p = false) :
    PromptParser.parse_eq p = ⟨0, 0, 0⟩ := by
  simp only [eqCue, Bool.or_eq_false_iff] at h
  obtain ⟨⟨⟨⟨⟨⟨⟨⟨⟨⟨⟨⟨⟨⟨⟨⟨⟨⟨⟨⟨c1, c2⟩, c3⟩, c4⟩, c5⟩, c6⟩, c7⟩, c8⟩, c9⟩,
    c10⟩, c11⟩, c12⟩, c13⟩, c14⟩, c15⟩, c16⟩, c17⟩, c18⟩, c19⟩, c20⟩, c21⟩ := h
  simp [PromptParser.parse_eq, c1, c2, c3, c4, c5, c6, c7, c8, c9, c10,
    c11, c12, c13, c14, c15, c16, c17, c18, c19, c20, c21]

/-- Claim C10: an input containing an EQ-family keyword but none of the
recognized EQ cue phrases still yields an Equalize operation with
bass = mid = treble = 0 as the first operation, and applying such an
operation always fails — apply_eq returns False without building any filter
when all three gains are zero. -/
theorem eq_keyword_without_cue_zero_gains (t : Text)
    (hkw : anyKw PromptParser.EQ_KEYWORDS (pyLower t) = true)
    (hcue : eqCue (pyLower t) = false) :
    (PromptParser.parse t).operations.head? = some (Op.eq ⟨0, 0, 0⟩) ∧
    (∀ (run : EngineCall → Bool) (input output : Text),
      AudioProcessor.apply_eq run input output 0 0 0 = false) ∧
    eqFilterList 0 0 0 = [] := by
  refine ⟨?_, ?_, ?_⟩
  · simp [PromptParser.parse, hkw, parse_eq_zero_of_no_cue _ hcue]
  · intro run input output
    simp [AudioProcessor.apply_eq, eqFilterList]
  · simp [eqFilterList]

theorem eq_keyword_without_cue_zero_gains_witness :
    (PromptParser.parse (s2t "frequency")).operations.head? =
      some (Op.eq ⟨0, 0, 0⟩) ∧
    (∀ (run : EngineCall → Bool) (input output : Text),
      AudioProcessor.apply_eq run input output 0 0 0 = false) ∧
    eqFilterList 0 0 0 = [] :=
  eq_keyword_without_cue_zero_gains (s2t "frequency") (by decide) (by decide)

/-- Claim C6: operations always appear in the fixed family evaluation order
(EQ, compression, reverb, volume, stereo width, master) regardless of phrase
order in the text; in particular the two example prompts both parse to
Equalize(treble = +3) followed by Reverb(default parameters). -/
theorem operations_follow_family_order :
    (∀ t : Text, ((PromptParser.parse t).operations.map opTypeName).Sublist
      ["eq", "compression", "reverb", "volume", "stereo_width", "master"]) ∧
    (PromptParser.parse (s2t "make it brighter and add some reverb")).operations =
      [Op.eq ⟨0, 0, 3⟩, Op.reverb ⟨mkRat 5 10, mkRat 5 10, mkRat 3 10⟩] ∧
    (PromptParser.parse (s2t "add some reverb and make it brighter")).operations =
      [Op.eq ⟨0, 0, 3⟩, Op.reverb ⟨mkRat 5 10, mkRat 5 10, mkRat 3 10⟩] := by
  refine ⟨?_, by decide, by decide⟩
  intro t
  simp only [PromptParser.parse]
  generalize anyKw PromptParser.EQ_KEYWORDS (pyLower t) = b1
  generalize anyKw PromptParser.COMPRESSION_KEYWORDS (pyLower t) = b2
  generalize anyKw PromptParser.REVERB_KEYWORDS (pyLower t) = b3
  generalize anyKw PromptParser.VOLUME_KEYWORDS (pyLower t) = b4
  generalize anyKw PromptParser.WIDTH_KEYWORDS (pyLower t) = b5
  generalize anyKw PromptParser.MASTER_KEYWORDS (pyLower t) = b6
  cases b1 <;> cases b2 <;> cases b3 <;> cases b4 <;> cases b5 <;> cases b6 <;>
    simp [opTypeName] <;> decide

/-- Claim C3 (code bug evaluation): the program's own help text advertises
the phrasing of a volume cut with an explicit dB amount, but on the input
of the claim the parser finds no volume keyword at all (the two-word keyword
is interrupted by another word), returns an empty operation list and
process_prompt answers with the guidance summary; and even for the
uninterrupted phrasing the unsigned numeric override yields +7, not -7. -/
theorem turn_it_down_unrecognized :
    (PromptParser.parse (s2t "turn it down 7db")).operations = [] ∧
    (PromptParser.parse (s2t "turn it down 7db")).requires_audio_processing = false ∧
    (MixEngineer.process_prompt runTrue (some sess0) (s2t "turn it down 7db")).1 =
      Reply.guidance ∧
    (PromptParser.parse (s2t "turn down 7db")).operations = [Op.volume 7] := by
  decide

/-- Witness for Claim C8 at a concrete input. -/
theorem unmatched_text_guidance_witness :
    MixEngineer.process_prompt runTrue (some sess0) (s2t "hello there") =
      (Reply.guidance, some sess0) ∧
    (PromptParser.parse (s2t "hello there")).operations = [] ∧
    (PromptParser.parse (s2t "hello there")).requires_audio_processing = false ∧
    (PromptParser.parse (s2t "hello there")).requires_suno = false := by
  have H := unmatched_text_guidance (s2t "hello there") (by decide)
  exact ⟨H.2.2.2 runTrue sess0 (s2t "song.wav") rfl, H.1, H.2.1, H.2.2.1⟩

theorem stepOp_of_fail {run : EngineCall → Bool} {sess : MixSession}
    {current : Text} {op : Op}
    (h : engineSuccess run current (nameFor (sess.version + 1) (opSuffix op)) op = false) :
    stepOp run sess current op =
      ({ sess with version := sess.version + slotCount op }, current,
       ⟨op, stepSlots sess.version op,
        engineCallOf current (nameFor (sess.version + 1) (opSuffix op)) op, false⟩) := by
  simp [stepOp, h]

theorem stepOp_of_success {run : EngineCall → Bool} {sess : MixSession}
    {current : Text} {op : Op}
    (h : engineSuccess run current (nameFor (sess.version + 1) (opSuffix op)) op = true) :
    stepOp run sess current op =
      ({ current_file := some (nameFor (sess.version + 1) (opSuffix op)),
         version := sess.version + slotCount op,
         history := sess.history ++
           [⟨opTypeName op, op, "success", sess.version + slotCount op⟩] },
       nameFor (sess.version + 1) (opSuffix op),
       ⟨op, stepSlots sess.version op,
        engineCallOf current (nameFor (sess.version + 1) (opSuffix op)) op, true⟩) := by
  simp [stepOp, h]

theorem stepOp_version (run : EngineCall → Bool) (sess : MixSession)
    (current : Text) (op : Op) :
    (stepOp run sess current op).1.version = sess.version + slotCount op := by
  by_cases h : engineSuccess run current (nameFor (sess.version + 1) (opSuffix op)) op
  · rw [stepOp_of_success h]
  · rw [stepOp_of_fail (Bool.eq_false_iff.mpr h)]

theorem processOps_version (run : EngineCall → Bool) :
    ∀ (ops : List Op) (sess : MixSession) (current : Text),
    (processOps run sess current ops).1.version = sess.version + slotTotal ops := by
  intro ops
  induction ops with
  | nil => intro sess current; simp [processOps, slotTotal]
  | cons op rest ih =>
    intro sess current
    simp only [processOps]
    rw [ih, stepOp_version]
    simp [slotTotal]
    omega

theorem processOps_history (run : EngineCall → Bool) :
    ∀ (ops : List Op) (sess : MixSession) (current : Text),
    ∃ l, (processOps run sess current ops).1.history = sess.history ++ l ∧
      (∀ r ∈ l, r.result = "success") ∧
      l.length = (processOps run sess current ops).2.2.countP (fun e => e.success) := by
  intro ops
  induction ops with
  | nil =>
    intro sess current
    exact ⟨[], by simp [processOps], by simp, by simp [processOps]⟩
  | cons op rest ih =>
    intro sess current
    by_cases h : engineSuccess run current (nameFor (sess.version + 1) (opSuffix op)) op
    · obtain ⟨l, hl, hres, hlen⟩ := ih _ _
      refine ⟨⟨opTypeName op, op, "success", sess.version + slotCount op⟩ :: l, ?_, ?_, ?_⟩
      · simp only [processOps, stepOp_of_success h] at *
        rw [hl]
        simp
      · intro r hr
        rcases List.mem_cons.mp hr with h' | h'
        · rw [h']
        · exact hres r h'
      · simp only [processOps, stepOp_of_success h, List.countP_cons] at *
        simp [hlen]
    · obtain ⟨l, hl, hres, hlen⟩ := ih _ _
      refine ⟨l, ?_, hres, ?_⟩
      · simp only [processOps, stepOp_of_fail (Bool.eq_false_iff.mpr h)] at *
        rw [hl]
      · simp only [processOps, stepOp_of_fail (Bool.eq_false_iff.mpr h), List.countP_cons] at *
        simp [hlen]

theorem processOps_history_success (run : EngineCall → Bool) :
    ∀ (ops : List Op) (sess : MixSession) (current : Text),
    ∀ x ∈ (processOps run sess current ops).1.history,
      x ∈ sess.history ∨ x.result = "success" := by
  intro ops sess current x hx
  obtain ⟨l, hl, hres, -⟩ := processOps_history run ops sess current
  rw [hl] at hx
  rcases List.mem_append.mp hx with h | h
  · exact Or.inl h
  · exact Or.inr (hres x h)

/-- Claim C1 (amended): for every batch executed by process_prompt, the
session version after the batch equals the version before plus the number of
get_versioned_path slots the batch consumes (one per operation, plus one
extra temp slot per Master operation), regardless of engine success; the
history grows only by records whose result is "success", and their number
equals the count of operations whose engine call succeeded — which can be
strictly smaller than the version increase. -/
theorem process_prompt_version_accounting (run : EngineCall → Bool)
    (sess : MixSession) (cf t : Text) (h : sess.current_file = some cf) :
    ∃ s', (MixEngineer.process_prompt run (some sess) t).2 = some s' ∧
      s'.version = sess.version + slotTotal (PromptParser.parse t).operations ∧
      ∃ l, s'.history = sess.history ++ l ∧
        (∀ r ∈ l, r.result = "success") ∧
        l.length = ((processOps run sess cf (PromptParser.parse t).operations).2.2.countP
          (fun e => e.success)) := by
  simp only [MixEngineer.process_prompt, h]
  by_cases hg : (PromptParser.parse t).operations.isEmpty ∧
      (PromptParser.parse t).requires_suno = false
  · have hops : (PromptParser.parse t).operations = [] := by
      simpa using hg.1
    refine ⟨sess, ?_, ?_, [], by simp, by simp, ?_⟩
    · simp [hops, hg.2]
    · simp [hops, slotTotal]
    · simp [hops, processOps]
  · have hgr : ((PromptParser.parse t).operations.isEmpty &&
        !(PromptParser.parse t).requires_suno) = false := by
      rcases Bool.eq_false_or_eq_true (PromptParser.parse t).operations.isEmpty with h1 | h1
      · rcases Bool.eq_false_or_eq_true (PromptParser.parse t).requires_suno with h2 | h2
        · simp [h2]
        · exact absurd ⟨h1, h2⟩ hg
      · simp [h1]
    simp only [hgr, Bool.false_eq_true, if_false]
    exact ⟨_, rfl, processOps_version run _ sess cf, processOps_history run _ sess cf⟩

/-- Witness for Claim C1 (amended) at a concrete one-operation batch. -/
theorem process_prompt_version_accounting_witness :
    ∃ s', (MixEngineer.process_prompt runTrue (some sess0) (s2t "louder")).2 = some s' ∧
      s'.version = sess0.version + slotTotal (PromptParser.parse (s2t "louder")).operations ∧
      ∃ l, s'.history = sess0.history ++ l ∧
        (∀ r ∈ l, r.result = "success") ∧
        l.length = ((processOps runTrue sess0 (s2t "song.wav")
          (PromptParser.parse (s2t "louder")).operations).2.2.countP
            (fun e => e.success)) :=
  process_prompt_version_accounting runTrue sess0 (s2t "song.wav") (s2t "louder") rfl

/-- Counterexample to Claim C1 as stated: from a fresh session (version 0,
empty history) the all-zero Equalize operation produced by an EQ keyword
fails before any engine call, yet the version still advances to 1 while the
count of success history records stays 0, so the version neither equals the
count of succeeded engine calls nor the count of success records. -/
theorem version_advances_without_any_success :
    sess0.version = 0 ∧ sess0.history = [] ∧
    (MixEngineer.process_prompt runTrue (some sess0) (s2t "frequency")).2 =
      some ⟨some (s2t "song.wav"), 1, []⟩ := by
  decide

/-- Claim C2 (amended): when an operation's engine call fails inside a
batch, no history record at all is appended for it (history only ever gains
"success" records — the failure is reported only in the summary text), the
version slot it consumed stays consumed, and processing continues with the
remaining operations from the same input artifact — the failed operation's
output is never chained forward. -/
theorem failed_op_skipped_not_chained (run : EngineCall → Bool)
    (sess : MixSession) (current : Text) (op : Op) (rest : List Op)
    (h : engineSuccess run current (nameFor (sess.version + 1) (opSuffix op)) op = false) :
    (processOps run sess current (op :: rest)).1 =
      (processOps run { sess with version := sess.version + slotCount op }
        current rest).1 ∧
    (processOps run sess current (op :: rest)).2.1 =
      (processOps run { sess with version := sess.version + slotCount op }
        current rest).2.1 ∧
    ∀ x ∈ (processOps run sess current (op :: rest)).1.history,
      x ∈ sess.history ∨ x.result = "success" := by
  refine ⟨?_, ?_, processOps_history_success run _ sess current⟩
  · simp only [processOps, stepOp_of_fail h]
  · simp only [processOps, stepOp_of_fail h]

/-- Witness for Claim C2 (amended): a failing all-zero EQ followed by a succeeding volume operation. -/
theorem failed_op_skipped_not_chained_witness :
    (processOps runTrue sess0 (s2t "song.wav") (Op.eq ⟨0, 0, 0⟩ :: [Op.volume 3])).1 =
      (processOps runTrue { sess0 with version := sess0.version + slotCount (Op.eq ⟨0, 0, 0⟩) }
        (s2t "song.wav") [Op.volume 3]).1 ∧
    (processOps runTrue sess0 (s2t "song.wav") (Op.eq ⟨0, 0, 0⟩ :: [Op.volume 3])).2.1 =
      (processOps runTrue { sess0 with version := sess0.version + slotCount (Op.eq ⟨0, 0, 0⟩) }
        (s2t "song.wav") [Op.volume 3]).2.1 ∧
    ∀ x ∈ (processOps runTrue sess0 (s2t "song.wav")
        (Op.eq ⟨0, 0, 0⟩ :: [Op.volume 3])).1.history,
      x ∈ sess0.history ∨ x.result = "success" :=
  failed_op_skipped_not_chained runTrue sess0 (s2t "song.wav") (Op.eq ⟨0, 0, 0⟩)
    [Op.volume 3] (by decide)

/-- Counterexample to Claim C2 as stated: a batch whose first operation
(all-zero EQ) fails and whose second succeeds ends with history holding only
the one success record — no record with outcome "failure" is appended for
the failed operation, and the failed operation still consumed version 1. -/
theorem no_failure_record_appended :
    (PromptParser.parse (s2t "frequency louder")).operations =
      [Op.eq ⟨0, 0, 0⟩, Op.volume 3] ∧
    (MixEngineer.process_prompt runTrue (some sess0) (s2t "frequency louder")).2 =
      some ⟨some (nameFor 2 (s2t "_volume")), 2,
        [⟨"volume", Op.volume 3, "success", 2⟩]⟩ := by
  decide

theorem stepOp_log (run : EngineCall → Bool) (sess : MixSession)
    (current : Text) (op : Op) :
    (stepOp run sess current op).2.2.op = op ∧
    (stepOp run sess current op).2.2.call =
      engineCallOf current (nameFor (sess.version + 1) (opSuffix op)) op ∧
    (stepOp run sess current op).2.2.slots = stepSlots sess.version op := by
  by_cases h : engineSuccess run current (nameFor (sess.version + 1) (opSuffix op)) op
  · rw [stepOp_of_success h]; exact ⟨rfl, rfl, rfl⟩
  · rw [stepOp_of_fail (Bool.eq_false_iff.mpr h)]; exact ⟨rfl, rfl, rfl⟩

/-- Claim C7: whenever a Master operation is processed, the engine is
invoked with exactly the fixed five-stage chain — high-pass at 30 Hz,
moderate compression, a small two-band corrective EQ boost, a brick-wall
limiter, loudness normalization to -14 LUFS — in this order, for any state,
any engine and any surrounding batch. -/
theorem master_chain_fixed (run : EngineCall → Bool) (sess : MixSession)
    (current : Text) (ops : List Op) (e : LogEntry)
    (he : e ∈ (processOps run sess current ops).2.2) (hm : e.op = Op.master) :
    (∃ i o, e.call = some ⟨i, o, AfArg.filters masterFilters⟩) ∧
    masterFilters =
      ["highpass=f=30",
       "acompressor=threshold=-18dB:ratio=3:attack=10:release=100",
       "equalizer=f=100:t=q:w=1:g=1,equalizer=f=10000:t=q:w=1:g=1.5",
       "alimiter=limit=-1dB:level=false",
       "loudnorm=I=-14:TP=-1.5:LRA=11"] ∧
    ∀ (run2 : EngineCall → Bool) (i o : Text),
      engineSuccess run2 i o Op.master =
        AudioProcessor.chain_effects run2 i o masterFilters := by
  refine ⟨?_, rfl, fun run2 i o => rfl⟩
  induction ops generalizing sess current with
  | nil => simp [processOps] at he
  | cons op rest ih =>
    simp only [processOps, List.mem_cons] at he
    rcases he with he | he
    · obtain ⟨hop, hcall, -⟩ := stepOp_log run sess current op
      rw [← he] at hop hcall
      have hopm : op = Op.master := by rw [← hop, hm]
      subst hopm
      refine ⟨current, nameFor (sess.version + 1) (opSuffix Op.master), ?_⟩
      rw [hcall]
      rfl
    · exact ih _ _ he

/-- Witness for Claim C7 on a concrete single-Master batch. -/
theorem master_chain_fixed_witness :
    (∃ i o, masterEntry.call = some ⟨i, o, AfArg.filters masterFilters⟩) ∧
    masterFilters =
      ["highpass=f=30",
       "acompressor=threshold=-18dB:ratio=3:attack=10:release=100",
       "equalizer=f=100:t=q:w=1:g=1,equalizer=f=10000:t=q:w=1:g=1.5",
       "alimiter=limit=-1dB:level=false",
       "loudnorm=I=-14:TP=-1.5:LRA=11"] ∧
    ∀ (run2 : EngineCall → Bool) (i o : Text),
      engineSuccess run2 i o Op.master =
        AudioProcessor.chain_effects run2 i o masterFilters :=
  master_chain_fixed runTrue sess0 (s2t "song.wav") [Op.master] masterEntry
    (by decide) (by decide)

/-- Claim C4 (amended): undo fails with NothingToUndo exactly when
version < 2 (not < 1 as claimed: version 1 cannot be undone back to the
original source, which never exists under a versioned file name); undo
immediately after set_source (version 0) fails with NothingToUndo; and for
version at least 2, when the directory scan finds an artifact of the
previous version, undo restores it and decrements the version. -/
theorem undo_characterization (files : List Text) (sess : MixSession) :
    ((MixEngineer.undo files sess).1 = UndoReply.nothingToUndo ↔ sess.version < 2) ∧
    (∀ A, (MixEngineer.undo files (sess.set_source A)).1 = UndoReply.nothingToUndo) ∧
    ∀ f, 2 ≤ sess.version →
      files.find? (globMatch (sess.version - 1)) = some f →
      MixEngineer.undo files sess =
        (UndoReply.reverted (sess.version - 1),
         { sess with current_file := some f, version := sess.version - 1 }) := by
  refine ⟨?_, ?_, ?_⟩
  · by_cases hv : sess.version < 2
    · simp [MixEngineer.undo, hv]
    · simp only [MixEngineer.undo, if_neg hv]
      cases hf : files.find? (globMatch (sess.version - 1)) <;> simp [hf, hv]
  · intro A
    simp [MixEngineer.undo, MixSession.set_source]
  · intro f h2 hf
    simp only [MixEngineer.undo, if_neg (by omega : ¬sess.version < 2), hf]

/-- Witness for Claim C4 (amended): a successful undo from version 2 to version 1. -/
theorem undo_characterization_witness :
    MixEngineer.undo undoFiles collisionBatch1.1 =
      (UndoReply.reverted (collisionBatch1.1.version - 1),
       { collisionBatch1.1 with
          current_file := some (nameFor 1 (s2t "_volume"))
          version := collisionBatch1.1.version - 1 }) :=
  (undo_characterization undoFiles collisionBatch1.1).2.2
    (nameFor 1 (s2t "_volume")) (by decide) (by decide)

/-- Counterexample to Claim C4 as stated: a reachable session with
version 1 whose version-0 artifact (the original source file) exists is
still refused with NothingToUndo, although the claim requires undo to fail
with NothingToUndo only when version < 1. -/
theorem undo_refused_at_version_one :
    oneOpSess.version = 1 ∧
    (MixEngineer.undo (s2t "song.wav" :: undoFiles) oneOpSess).1 =
      UndoReply.nothingToUndo := by
  decide

theorem toDigsF_stable : ∀ (f g n : Nat), n ≤ f → n ≤ g → toDigsF f n = toDigsF g n := by
  intro f
  induction f with
  | zero =>
    intro g n hf hg
    have : n = 0 := by omega
    subst this
    cases g <;> rfl
  | succ f ih =>
    intro g n hf hg
    cases n with
    | zero => cases g <;> rfl
    | succ m =>
      cases g with
      | zero => omega
      | succ g' =>
        have hd : (m + 1) / 10 ≤ m := by
          have := Nat.div_lt_self (Nat.succ_pos m) (by omega : 1 < 10)
          omega
        simp only [toDigsF]
        rw [ih g' ((m + 1) / 10) (by omega) (by omega)]

theorem toDigs_succ (n : Nat) : toDigs (n + 1) = toDigs ((n + 1) / 10) ++ [(n + 1) % 10] := by
  have hd : (n + 1) / 10 ≤ n := by
    have := Nat.div_lt_self (Nat.succ_pos n) (by omega : 1 < 10)
    omega
  show toDigsF (n + 1) (n + 1) = _
  simp only [toDigsF]
  rw [toDigsF_stable n ((n + 1) / 10) ((n + 1) / 10) (by omega) le_rfl]
  rfl

theorem bigVal_append_singleton (xs : List Nat) (d : Nat) :
    bigVal (xs ++ [d]) = 10 * bigVal xs + d := by
  simp [bigVal, List.foldl_append]

theorem bigVal_toDigsF : ∀ (f n : Nat), n ≤ f → bigVal (toDigsF f n) = n := by
  intro f
  induction f with
  | zero =>
    intro n h
    have : n = 0 := by omega
    subst this
    rfl
  | succ f ih =>
    intro n h
    cases n with
    | zero => rfl
    | succ m =>
      have hd : (m + 1) / 10 ≤ m := by
        have := Nat.div_lt_self (Nat.succ_pos m) (by omega : 1 < 10)
        omega
      simp only [toDigsF]
      rw [bigVal_append_singleton, ih ((m + 1) / 10) (by omega)]
      omega

theorem bigVal_toDigs (n : Nat) : bigVal (toDigs n) = n :=
  bigVal_toDigsF n n le_rfl

theorem bigVal_replicate_zero : ∀ (k : Nat) (l : List Nat),
    bigVal (List.replicate k 0 ++ l) = bigVal l := by
  intro k
  induction k with
  | zero => intro l; rfl
  | succ k ih =>
    intro l
    show bigVal (0 :: (List.replicate k 0 ++ l)) = bigVal l
    have : bigVal (0 :: (List.replicate k 0 ++ l)) =
        bigVal (List.replicate k 0 ++ l) := by
      simp [bigVal]
    rw [this, ih]

theorem bigVal_pad3 (n : Nat) : bigVal (pad3 n) = n := by
  rw [pad3, bigVal_replicate_zero, bigVal_toDigs]

theorem pad3_inj {a b : Nat} (h : pad3 a = pad3 b) : a = b := by
  rw [← bigVal_pad3 a, ← bigVal_pad3 b, h]

theorem toDigsF_lt_ten : ∀ (f n d : Nat), d ∈ toDigsF f n → d < 10 := by
  intro f
  induction f with
  | zero => intro n d hd; simp [toDigsF] at hd
  | succ f ih =>
    intro n d hd
    cases n with
    | zero => simp [toDigsF] at hd
    | succ m =>
      simp only [toDigsF, List.mem_append, List.mem_singleton] at hd
      rcases hd with hd | hd
      · exact ih _ _ hd
      · subst hd; exact Nat.mod_lt _ (by omega)

theorem pad3_lt_ten {n d : Nat} (hd : d ∈ pad3 n) : d < 10 := by
  rw [pad3, List.mem_append] at hd
  rcases hd with hd | hd
  · have := List.eq_of_mem_replicate hd
    omega
  · exact toDigsF_lt_ten n n d hd

theorem padDigits_isDig {n x : Nat} (hx : x ∈ padDigits n) : isDigC x = true := by
  rw [padDigits, List.mem_map] at hx
  obtain ⟨d, hd, rfl⟩ := hx
  have := pad3_lt_ten hd
  simp [isDigC]
  omega

theorem padDigits_inj {a b : Nat} (h : padDigits a = padDigits b) : a = b := by
  have hinj : Function.Injective (fun d : Nat => d + 48) :=
    fun x y hxy => by exact Nat.add_right_cancel hxy
  exact pad3_inj (List.map_injective_iff.mpr hinj h)

theorem takeWhile_append_all {p : Nat → Bool} :
    ∀ (xs ys : Text), (∀ x ∈ xs, p x = true) →
      (∀ y, ys.head? = some y → p y = false) →
      (xs ++ ys).takeWhile p = xs := by
  intro xs
  induction xs with
  | nil =>
    intro ys _ hy
    cases ys with
    | nil => rfl
    | cons y t => simp [List.takeWhile_cons, hy y rfl]
  | cons x xs ih =>
    intro ys hx hy
    have hpx : p x = true := hx x (List.mem_cons_self x xs)
    simp only [List.cons_append, List.takeWhile_cons, hpx, if_true]
    rw [ih ys (fun z hz => hx z (List.mem_cons_of_mem x hz)) hy]

theorem nameFor_inj {k1 k2 : Nat} {s1 s2 : Text}
    (h1 : s1.head? = some 95) (h2 : s2.head? = some 95)
    (h : nameFor k1 s1 = nameFor k2 s2) : k1 = k2 := by
  cases s1 with
  | nil => simp at h1
  | cons a1 t1 =>
    cases s2 with
    | nil => simp at h2
    | cons a2 t2 =>
      simp only [List.head?_cons, Option.some_inj] at h1 h2
      subst h1; subst h2
      unfold nameFor at h
      injection h with _ h'
      have e1 : ((padDigits k1 ++ (95 :: t1)) ++ s2t ".wav").takeWhile isDigC =
          padDigits k1 := by
        rw [List.append_assoc]
        exact takeWhile_append_all _ _ (fun x hx => padDigits_isDig hx)
          (fun y hy => by
            simp only [List.cons_append, List.head?_cons, Option.some_inj] at hy
            subst hy
            rfl)
      have e2 : ((padDigits k2 ++ (95 :: t2)) ++ s2t ".wav").takeWhile isDigC =
          padDigits k2 := by
        rw [List.append_assoc]
        exact takeWhile_append_all _ _ (fun x hx => padDigits_isDig hx)
          (fun y hy => by
            simp only [List.cons_append, List.head?_cons, Option.some_inj] at hy
            subst hy
            rfl)
      have hpp : (padDigits k1 ++ (95 :: t1)) ++ s2t ".wav" =
          (padDigits k2 ++ (95 :: t2)) ++ s2t ".wav" := h'
      rw [hpp] at e1
      exact padDigits_inj (e1.symm.trans e2)

theorem opSuffix_head (op : Op) : (opSuffix op).head? = some 95 := by
  cases op <;> rfl

theorem slotCount_pos (op : Op) : 1 ≤ slotCount op := by
  cases op <;> simp [slotCount]

theorem stepSlots_mem {v : Nat} {op : Op} {p : Text} (hp : p ∈ stepSlots v op) :
    ∃ k s, p = nameFor k s ∧ v < k ∧ k ≤ v + slotCount op ∧ s.head? = some 95 := by
  cases op with
  | master =>
    simp only [stepSlots, List.mem_cons, List.not_mem_nil, or_false] at hp
    rcases hp with hp | hp
    · exact ⟨v + 1, s2t "_master", hp, by omega, by simp [slotCount], rfl⟩
    · exact ⟨v + 2, s2t "_master_temp", hp, by omega, by simp [slotCount], rfl⟩
  | eq pr =>
    simp only [stepSlots, List.mem_singleton] at hp
    exact ⟨v + 1, opSuffix (Op.eq pr), hp, by omega, by simp [slotCount], opSuffix_head _⟩
  | compression pr =>
    simp only [stepSlots, List.mem_singleton] at hp
    exact ⟨v + 1, opSuffix (Op.compression pr), hp, by omega, by simp [slotCount],
      opSuffix_head _⟩
  | reverb pr =>
    simp only [stepSlots, List.mem_singleton] at hp
    exact ⟨v + 1, opSuffix (Op.reverb pr), hp, by omega, by simp [slotCount],
      opSuffix_head _⟩
  | volume db =>
    simp only [stepSlots, List.mem_singleton] at hp
    exact ⟨v + 1, opSuffix (Op.volume db), hp, by omega, by simp [slotCount],
      opSuffix_head _⟩
  | stereo_width w =>
    simp only [stepSlots, List.mem_singleton] at hp
    exact ⟨v + 1, opSuffix (Op.stereo_width w), hp, by omega, by simp [slotCount],
      opSuffix_head _⟩

theorem logSlots_mem (run : EngineCall → Bool) :
    ∀ (ops : List Op) (sess : MixSession) (current : Text) (p : Text),
    p ∈ logSlots (processOps run sess current ops).2.2 →
    ∃ k s, p = nameFor k s ∧ sess.version < k ∧
      k ≤ sess.version + slotTotal ops ∧ s.head? = some 95 := by
  intro ops
  induction ops with
  | nil => intro sess current p hp; simp [processOps, logSlots] at hp
  | cons op rest ih =>
    intro sess current p hp
    simp only [processOps, logSlots, List.mem_append] at hp
    have hslots := (stepOp_log run sess current op).2.2
    rcases hp with hp | hp
    · rw [hslots] at hp
      obtain ⟨k, s, hps, hlt, hle, hh⟩ := stepSlots_mem hp
      refine ⟨k, s, hps, hlt, ?_, hh⟩
      have : slotCount op ≤ slotTotal (op :: rest) := by
        simp [slotTotal]
      omega
    · obtain ⟨k, s, hps, hlt, hle, hh⟩ := ih _ _ _ hp
      rw [stepOp_version] at hlt hle
      refine ⟨k, s, hps, by omega, ?_, hh⟩
      have : slotTotal (op :: rest) = slotCount op + slotTotal rest := by
        simp [slotTotal]
      omega

theorem stepSlots_nodup (v : Nat) (op : Op) : (stepSlots v op).Nodup := by
  cases op with
  | master =>
    simp only [stepSlots, List.nodup_cons, List.mem_singleton, List.not_mem_nil,
      not_false_iff, List.nodup_nil, and_true]
    intro heq
    have := nameFor_inj (rfl : (s2t "_master").head? = some 95)
      (rfl : (s2t "_master_temp").head? = some 95) heq
    omega
  | eq pr => simp [stepSlots]
  | compression pr => simp [stepSlots]
  | reverb pr => simp [stepSlots]
  | volume db => simp [stepSlots]
  | stereo_width w => simp [stepSlots]

theorem logSlots_nodup (run : EngineCall → Bool) :
    ∀ (ops : List Op) (sess : MixSession) (current : Text),
    (logSlots (processOps run sess current ops).2.2).Nodup := by
  intro ops
  induction ops with
  | nil => intro sess current; simp [processOps, logSlots]
  | cons op rest ih =>
    intro sess current
    simp only [processOps, logSlots]
    rw [(stepOp_log run sess current op).2.2]
    refine List.nodup_append.mpr ⟨stepSlots_nodup _ _, ih _ _, ?_⟩
    intro p hp hp'
    obtain ⟨k, s, hps, hlt, hle, hh⟩ := stepSlots_mem hp
    obtain ⟨k', s', hps', hlt', hle', hh'⟩ := logSlots_mem run rest _ _ p hp'
    rw [stepOp_version] at hlt'
    have : k = k' := nameFor_inj hh hh' (hps.symm.trans hps')
    omega

theorem multiSlots_mem (run : EngineCall → Bool) :
    ∀ (batches : List (Text × List Op)) (sess : MixSession) (p : Text),
    p ∈ multiSlots run sess batches →
    ∃ k s, p = nameFor k s ∧ sess.version < k ∧ s.head? = some 95 := by
  intro batches
  induction batches with
  | nil => intro sess p hp; simp [multiSlots] at hp
  | cons b more ih =>
    intro sess p hp
    obtain ⟨c, ops⟩ := b
    simp only [multiSlots, List.mem_append] at hp
    rcases hp with hp | hp
    · obtain ⟨k, s, hps, hlt, hle, hh⟩ := logSlots_mem run ops sess c p hp
      exact ⟨k, s, hps, hlt, hh⟩
    · obtain ⟨k, s, hps, hlt, hh⟩ := ih _ p hp
      rw [processOps_version] at hlt
      exact ⟨k, s, hps, by omega, hh⟩

/-- Claim C5 (amended): over any sequence of operation batches with no undo
in between, every artifact path returned by get_versioned_path is distinct
from every other one for the same session — the zero-padded version number
embedded in the name strictly increases and determines the name.  With undo
interleaved the property fails (see the counterexample). -/
theorem versioned_slots_distinct_without_undo (run : EngineCall → Bool)
    (sess : MixSession) (batches : List (Text × List Op)) :
    (multiSlots run sess batches).Nodup := by
  induction batches generalizing sess with
  | nil => simp [multiSlots]
  | cons b more ih =>
    obtain ⟨c, ops⟩ := b
    simp only [multiSlots]
    refine List.nodup_append.mpr ⟨logSlots_nodup run ops sess c, ih _, ?_⟩
    intro p hp hp'
    obtain ⟨k, s, hps, hlt, hle, hh⟩ := logSlots_mem run ops sess c p hp
    obtain ⟨k', s', hps', hlt', hh'⟩ := multiSlots_mem run more _ p hp'
    rw [processOps_version] at hlt'
    have : k = k' := nameFor_inj hh hh' (hps.symm.trans hps')
    omega

/-- Counterexample to Claim C5 as stated: after two successful volume
operations, an undo (which succeeds and decrements the version to 1), and a
third volume operation, the slot handed to the third operation is exactly
the same path that the second operation already received. -/
theorem slot_collision_after_undo :
    collisionUndo.1 = UndoReply.reverted 1 ∧
    nameFor 2 (s2t "_volume") ∈ logSlots collisionBatch1.2.2 ∧
    nameFor 2 (s2t "_volume") ∈ logSlots collisionBatch2.2.2 := by
  decide
